import Mathlib

/-!
Shallow embedding of `src/platform-bridges/PlatformBridgeBase.js` from the
instant-games-bridge repository, together with proofs about the claims of
its specification.

Conventions of the embedding:
* JavaScript promises are modelled by their settlement outcome; the private
  `#promiseDecorators` dictionary is modelled as a map from action names to
  numeric decorator identifiers (each `new PromiseDecorator()` allocates a
  fresh identifier), and settling a decorator appends an entry to a global
  settlement log.  "The future settles with v" is "the log holds an entry
  for the future's identifier with outcome resolved v".
* The `EventLite` mixin's `emit` is modelled by appending the emitted event
  (name and payload) to an event log carried in the state.
* `window.localStorage` is modelled as a partial map from strings to the
  stored text, `null` (storage unavailable) as `Option.none` around it.
-/

namespace Bridge

/-- Modelled from the spec: `PromiseDecorator` (its file
`src/common/PromiseDecorator.js` is not among the sources at hand) is "an
unresolved settlement handle (resolve/reject pair) and the promise/future
it guards".  A settlement is the outcome its promise was settled with:
fulfilled with a value or rejected with an error. -/
inductive Settlement (α ε : Type) where
  | resolved (v : α)
  | rejected (e : ε)
deriving DecidableEq

/-- State of the private `#promiseDecorators` registry of
`PlatformBridgeBase`: the dictionary from action names to the decorator
currently stored under the name, a counter allocating fresh decorator
identifiers (each `new PromiseDecorator()` is a fresh object), and the log
of every settlement (resolve or reject) performed so far. -/
structure RegistryState (α ε : Type) where
  decorators : String → Option Nat
  nextId : Nat
  settlements : List (Nat × Settlement α ε)

/-- Embedding of `_createPromiseDecorator(actionName)`: allocate a fresh
decorator, store it under `actionName` (overwriting any previous entry),
and return it. -/
def createPromiseDecorator (s : RegistryState α ε) (actionName : String) :
    RegistryState α ε × Nat :=
  ({ s with
      decorators := fun k => if k = actionName then some s.nextId else s.decorators k
      nextId := s.nextId + 1 },
    s.nextId)

/-- Embedding of `_getPromiseDecorator(actionName)`: dictionary lookup. -/
def getPromiseDecorator (s : RegistryState α ε) (actionName : String) : Option Nat :=
  s.decorators actionName

/-- Embedding of `_resolvePromiseDecorator(id, data)`: if a decorator is
stored under `id`, resolve its promise with `data` and delete the entry;
otherwise do nothing. -/
def resolvePromiseDecorator (s : RegistryState α ε) (id : String) (data : α) :
    RegistryState α ε :=
  match s.decorators id with
  | some d =>
      { s with
          decorators := fun k => if k = id then none else s.decorators k
          settlements := s.settlements ++ [(d, Settlement.resolved data)] }
  | none => s

/-- Embedding of `_rejectPromiseDecorator(id, error)`: if a decorator is
stored under `id`, reject its promise with `error` and delete the entry;
otherwise do nothing. -/
def rejectPromiseDecorator (s : RegistryState α ε) (id : String) (error : ε) :
    RegistryState α ε :=
  match s.decorators id with
  | some d =>
      { s with
          decorators := fun k => if k = id then none else s.decorators k
          settlements := s.settlements ++ [(d, Settlement.rejected error)] }
  | none => s

/-- One call into the registry: `_createPromiseDecorator`,
`_resolvePromiseDecorator` or `_rejectPromiseDecorator`. -/
inductive RegistryOp (α ε : Type) where
  | create (actionName : String)
  | resolve (id : String) (data : α)
  | reject (id : String) (error : ε)

/-- Apply one registry call to the registry state. -/
def applyOp (s : RegistryState α ε) : RegistryOp α ε → RegistryState α ε
  | RegistryOp.create a => (createPromiseDecorator s a).1
  | RegistryOp.resolve i d => resolvePromiseDecorator s i d
  | RegistryOp.reject i e => rejectPromiseDecorator s i e

/-- Run a sequence of registry calls from a start state. -/
def runOps (s : RegistryState α ε) (ops : List (RegistryOp α ε)) : RegistryState α ε :=
  ops.foldl applyOp s

/-- All settlements performed on decorator `d`, in order. -/
def settlementsFor (s : RegistryState α ε) (d : Nat) : List (Settlement α ε) :=
  (s.settlements.filter (fun p => p.1 = d)).map (fun p => p.2)

/-- Well-formedness of a registry state: every decorator identifier stored
in the dictionary or mentioned in the settlement log was allocated before
`nextId`.  This holds for the initial state and is preserved by every
operation; it expresses that decorator objects are distinct. -/
def FreshIds (s : RegistryState α ε) : Prop :=
  (∀ k d, s.decorators k = some d → d < s.nextId) ∧
    (∀ p ∈ s.settlements, p.1 < s.nextId)

/-- The registry state of a freshly constructed bridge: empty dictionary,
no settlement performed. -/
def initialRegistry (α ε : Type) : RegistryState α ε :=
  ⟨fun _ => none, 0, []⟩

theorem freshIds_initial (α ε : Type) : FreshIds (initialRegistry α ε) := by
  constructor
  · intro k d h
    simp [initialRegistry] at h
  · intro p hp
    simp [initialRegistry] at hp

/-- A decorator is orphaned in a state when it is nowhere in the
dictionary and its identifier is in the allocated range. -/
def Orphaned (s : RegistryState α ε) (d : Nat) : Prop :=
  (∀ k, s.decorators k ≠ some d) ∧ d < s.nextId

theorem orphaned_applyOp {s : RegistryState α ε} {d : Nat} (h : Orphaned s d)
    (op : RegistryOp α ε) :
    Orphaned (applyOp s op) d ∧ settlementsFor (applyOp s op) d = settlementsFor s d := by
  obtain ⟨hmap, hlt⟩ := h
  cases op with
  | create a =>
      refine ⟨⟨?_, ?_⟩, ?_⟩
      · intro k
        simp only [applyOp, createPromiseDecorator]
        by_cases hk : k = a
        · simp [hk]
          omega
        · simp [hk]
          exact hmap k
      · simp only [applyOp, createPromiseDecorator]
        omega
      · simp [applyOp, createPromiseDecorator, settlementsFor]
  | resolve i v =>
      simp only [applyOp, resolvePromiseDecorator]
      cases hdi : s.decorators i with
      | none => exact ⟨⟨hmap, hlt⟩, rfl⟩
      | some e =>
          have hne : e ≠ d := by
            intro he
            exact hmap i (he ▸ hdi)
          refine ⟨⟨?_, hlt⟩, ?_⟩
          · intro k
            by_cases hk : k = i <;> simp [hk]
            exact hmap k
          · simp [settlementsFor, List.filter_append, hne]
  | reject i e =>
      simp only [applyOp, rejectPromiseDecorator]
      cases hdi : s.decorators i with
      | none => exact ⟨⟨hmap, hlt⟩, rfl⟩
      | some e' =>
          have hne : e' ≠ d := by
            intro he
            exact hmap i (he ▸ hdi)
          refine ⟨⟨?_, hlt⟩, ?_⟩
          · intro k
            by_cases hk : k = i <;> simp [hk]
            exact hmap k
          · simp [settlementsFor, List.filter_append, hne]

theorem orphaned_runOps {s : RegistryState α ε} {d : Nat} (h : Orphaned s d)
    (ops : List (RegistryOp α ε)) :
    Orphaned (runOps s ops) d ∧ settlementsFor (runOps s ops) d = settlementsFor s d := by
  induction ops generalizing s with
  | nil => exact ⟨h, rfl⟩
  | cons op ops ih =>
      obtain ⟨h1, h2⟩ := orphaned_applyOp h op
      obtain ⟨h3, h4⟩ := ih h1
      exact ⟨h3, by simp [runOps] at h4 ⊢; rw [h4, h2]⟩

theorem settlementsFor_fresh {s : RegistryState α ε} (hWF : FreshIds s) {d : Nat}
    (hd : s.nextId ≤ d) : settlementsFor s d = [] := by
  simp only [settlementsFor, List.map_eq_nil_iff, List.filter_eq_nil_iff]
  intro p hp
  have := hWF.2 p hp
  simp only [decide_eq_true_eq]
  omega

end Bridge

namespace Bridge

theorem registry_not_pending_noop {s : RegistryState α ε} {K : String}
    (h : s.decorators K = none) (v : α) (e : ε) :
    resolvePromiseDecorator s K v = s ∧ rejectPromiseDecorator s K e = s := by
  constructor
  · simp [resolvePromiseDecorator, h]
  · simp [rejectPromiseDecorator, h]

/-- Claim C1: for every action key `K`, `_createPromiseDecorator K` followed by
`_resolvePromiseDecorator K v` fulfills the decorator returned by the create
call with `v`, exactly once and forever (no later sequence of registry calls
ever settles it again), and afterwards `_getPromiseDecorator K` returns
`undefined` (absent). -/
theorem createThenResolve_settles_once {α ε : Type} (s : RegistryState α ε)
    (K : String) (v : α) (hWF : FreshIds s) :
    getPromiseDecorator
        (resolvePromiseDecorator (createPromiseDecorator s K).1 K v) K = none ∧
      ∀ ops : List (RegistryOp α ε),
        settlementsFor
            (runOps (resolvePromiseDecorator (createPromiseDecorator s K).1 K v) ops)
            (createPromiseDecorator s K).2 = [Settlement.resolved v] := by
  have hkey : (createPromiseDecorator s K).1.decorators K = some s.nextId := by
    simp [createPromiseDecorator]
  constructor
  · simp [getPromiseDecorator, resolvePromiseDecorator, hkey]
  · intro ops
    have horph :
        Orphaned (resolvePromiseDecorator (createPromiseDecorator s K).1 K v) s.nextId := by
      constructor
      · intro k
        simp only [resolvePromiseDecorator, hkey, createPromiseDecorator]
        by_cases hk : k = K
        · simp [hk]
        · simp [hk]
          intro habs
          exact absurd (hWF.1 k s.nextId habs) (by omega)
      · simp [resolvePromiseDecorator, hkey, createPromiseDecorator]
    have hd2 : (createPromiseDecorator s K).2 = s.nextId := rfl
    have hfil : s.settlements.filter (fun p => p.1 = s.nextId) = [] := by
      rw [List.filter_eq_nil_iff]
      rintro ⟨a, b⟩ hab hEq
      have h5 := hWF.2 ⟨a, b⟩ hab
      simp only [decide_eq_true_eq] at hEq
      omega
    have hset :
        settlementsFor (resolvePromiseDecorator (createPromiseDecorator s K).1 K v)
          s.nextId = [Settlement.resolved v] := by
      simp only [resolvePromiseDecorator, hkey, settlementsFor, createPromiseDecorator,
        List.filter_append, hfil]
      simp
      intro a b hab
      have h5 : a < s.nextId := hWF.2 (a, b) hab
      omega
    have h2 := orphaned_runOps horph ops
    rw [hd2, h2.2]
    exact hset

/-- Concrete instance of C1 at the initial registry, key "showRewarded",
value 7: the creating call's decorator is resolved with 7 once and for all
(even a later stray reject on the same key does not touch it), and the key
is absent after settlement. -/
theorem createThenResolve_settles_once_witness :
    getPromiseDecorator
        (resolvePromiseDecorator
          (createPromiseDecorator (initialRegistry Nat Nat) "showRewarded").1
          "showRewarded" 7) "showRewarded" = none ∧
      settlementsFor
          (runOps
            (resolvePromiseDecorator
              (createPromiseDecorator (initialRegistry Nat Nat) "showRewarded").1
              "showRewarded" 7)
            [RegistryOp.reject "showRewarded" 3])
          (createPromiseDecorator (initialRegistry Nat Nat) "showRewarded").2
        = [Settlement.resolved 7] := by
  have h := createThenResolve_settles_once (initialRegistry Nat Nat) "showRewarded" 7
    (freshIds_initial Nat Nat)
  exact ⟨h.1, h.2 [RegistryOp.reject "showRewarded" 3]⟩

end Bridge

namespace Bridge

theorem filter_settlements_eq_nil {s : RegistryState α ε} (hWF : FreshIds s) {d : Nat}
    (hd : s.nextId ≤ d) : s.settlements.filter (fun p => p.1 = d) = [] := by
  rw [List.filter_eq_nil_iff]
  rintro ⟨a, b⟩ hab hEq
  have h5 : a < s.nextId := hWF.2 ⟨a, b⟩ hab
  simp only [decide_eq_true_eq] at hEq
  omega

/-- Claim C2: two `_createPromiseDecorator K` calls without an intervening
settlement return distinct decorators; the registry entry is overwritten, so
the first decorator never settles under any subsequent sequence of registry
calls, while the entry under `K` is the second decorator and a
`_resolvePromiseDecorator`/`_rejectPromiseDecorator` call on `K` settles
exactly the second decorator. -/
theorem doubleCreate_orphans_first {α ε : Type} (s : RegistryState α ε)
    (K : String) (v : α) (e : ε) (hWF : FreshIds s) :
    (createPromiseDecorator s K).2
        ≠ (createPromiseDecorator (createPromiseDecorator s K).1 K).2 ∧
      (∀ ops : List (RegistryOp α ε),
        settlementsFor
            (runOps (createPromiseDecorator (createPromiseDecorator s K).1 K).1 ops)
            (createPromiseDecorator s K).2 = []) ∧
      getPromiseDecorator (createPromiseDecorator (createPromiseDecorator s K).1 K).1 K
        = some (createPromiseDecorator (createPromiseDecorator s K).1 K).2 ∧
      settlementsFor
          (resolvePromiseDecorator
            (createPromiseDecorator (createPromiseDecorator s K).1 K).1 K v)
          (createPromiseDecorator (createPromiseDecorator s K).1 K).2
        = [Settlement.resolved v] ∧
      settlementsFor
          (rejectPromiseDecorator
            (createPromiseDecorator (createPromiseDecorator s K).1 K).1 K e)
          (createPromiseDecorator (createPromiseDecorator s K).1 K).2
        = [Settlement.rejected e] := by
  have hd1 : (createPromiseDecorator s K).2 = s.nextId := rfl
  have hd2 : (createPromiseDecorator (createPromiseDecorator s K).1 K).2 = s.nextId + 1 := rfl
  have hkey :
      (createPromiseDecorator (createPromiseDecorator s K).1 K).1.decorators K
        = some (s.nextId + 1) := by
    simp [createPromiseDecorator]
  have hfil : s.settlements.filter (fun p => p.1 = s.nextId + 1) = [] :=
    filter_settlements_eq_nil hWF (by omega)
  refine ⟨by rw [hd1, hd2]; omega, ?_, ?_, ?_, ?_⟩
  · intro ops
    have horph :
        Orphaned (createPromiseDecorator (createPromiseDecorator s K).1 K).1 s.nextId := by
      constructor
      · intro k
        simp only [createPromiseDecorator]
        by_cases hk : k = K
        · simp [hk]
        · simp [hk]
          intro habs
          exact absurd (hWF.1 k s.nextId habs) (by omega)
      · simp only [createPromiseDecorator]
        omega
    have hbase :
        settlementsFor (createPromiseDecorator (createPromiseDecorator s K).1 K).1 s.nextId
          = settlementsFor s s.nextId := rfl
    rw [hd1, (orphaned_runOps horph ops).2, hbase]
    exact settlementsFor_fresh hWF (Nat.le_refl _)
  · simp [getPromiseDecorator, createPromiseDecorator]
  · simp only [resolvePromiseDecorator, hkey, hd2, settlementsFor, createPromiseDecorator,
      List.filter_append, hfil]
    simp
    intro a b hab
    have h5 : a < s.nextId := hWF.2 (a, b) hab
    omega
  · simp only [rejectPromiseDecorator, hkey, hd2, settlementsFor, createPromiseDecorator,
      List.filter_append, hfil]
    simp
    intro a b hab
    have h5 : a < s.nextId := hWF.2 (a, b) hab
    omega

/-- Concrete instance of C2 at the initial registry, key "authorizePlayer":
after two create calls the first decorator (identifier 0) stays unsettled
even when the key is then resolved and rejected, while a resolve settles the
second decorator (identifier 1) with the value 5. -/
theorem doubleCreate_orphans_first_witness :
    (createPromiseDecorator (initialRegistry Nat Nat) "authorizePlayer").2
        ≠ (createPromiseDecorator
            (createPromiseDecorator (initialRegistry Nat Nat) "authorizePlayer").1
            "authorizePlayer").2 ∧
      settlementsFor
          (runOps
            (createPromiseDecorator
              (createPromiseDecorator (initialRegistry Nat Nat) "authorizePlayer").1
              "authorizePlayer").1
            [RegistryOp.resolve "authorizePlayer" 5, RegistryOp.reject "authorizePlayer" 9])
          (createPromiseDecorator (initialRegistry Nat Nat) "authorizePlayer").2 = [] ∧
      settlementsFor
          (resolvePromiseDecorator
            (createPromiseDecorator
              (createPromiseDecorator (initialRegistry Nat Nat) "authorizePlayer").1
              "authorizePlayer").1
            "authorizePlayer" 5)
          (createPromiseDecorator
            (createPromiseDecorator (initialRegistry Nat Nat) "authorizePlayer").1
            "authorizePlayer").2
        = [Settlement.resolved 5] := by
  have h := doubleCreate_orphans_first (initialRegistry Nat Nat) "authorizePlayer" 5 9
    (freshIds_initial Nat Nat)
  exact ⟨h.1,
    h.2.1 [RegistryOp.resolve "authorizePlayer" 5, RegistryOp.reject "authorizePlayer" 9],
    h.2.2.2.1⟩

/-- Claim C3: settling a key with no pending operation is a no-op that does
not throw and leaves the registry unchanged; in particular, after a create
and a first settle the key is cleared, so a second settle call (success or
failure) has no effect. -/
theorem settle_without_pending_noop {α ε : Type} (s : RegistryState α ε)
    (K : String) (v v' : α) (e e' : ε) (h : getPromiseDecorator s K = none) :
    resolvePromiseDecorator s K v = s ∧
      rejectPromiseDecorator s K e = s ∧
      resolvePromiseDecorator
          (resolvePromiseDecorator (createPromiseDecorator s K).1 K v) K v'
        = resolvePromiseDecorator (createPromiseDecorator s K).1 K v ∧
      rejectPromiseDecorator
          (resolvePromiseDecorator (createPromiseDecorator s K).1 K v) K e'
        = resolvePromiseDecorator (createPromiseDecorator s K).1 K v := by
  have h0 : s.decorators K = none := h
  have hkey : (createPromiseDecorator s K).1.decorators K = some s.nextId := by
    simp [createPromiseDecorator]
  have hcleared :
      (resolvePromiseDecorator (createPromiseDecorator s K).1 K v).decorators K = none := by
    simp [resolvePromiseDecorator, hkey]
  exact ⟨(registry_not_pending_noop h0 v e).1,
    (registry_not_pending_noop h0 v e).2,
    (registry_not_pending_noop hcleared v' e').1,
    (registry_not_pending_noop hcleared v' e').2⟩

/-- Concrete instance of C3 at the initial registry, key "getData": settle
calls on the empty registry are identities, and after create + resolve the
following resolve and reject are identities as well. -/
theorem settle_without_pending_noop_witness :
    resolvePromiseDecorator (initialRegistry Nat Nat) "getData" 4 = initialRegistry Nat Nat ∧
      rejectPromiseDecorator (initialRegistry Nat Nat) "getData" 6 = initialRegistry Nat Nat ∧
      resolvePromiseDecorator
          (resolvePromiseDecorator
            (createPromiseDecorator (initialRegistry Nat Nat) "getData").1 "getData" 4)
          "getData" 8
        = resolvePromiseDecorator
            (createPromiseDecorator (initialRegistry Nat Nat) "getData").1 "getData" 4 ∧
      rejectPromiseDecorator
          (resolvePromiseDecorator
            (createPromiseDecorator (initialRegistry Nat Nat) "getData").1 "getData" 4)
          "getData" 2
        = resolvePromiseDecorator
            (createPromiseDecorator (initialRegistry Nat Nat) "getData").1 "getData" 4 :=
  settle_without_pending_noop (initialRegistry Nat Nat) "getData" 4 8 6 2 rfl

end Bridge

namespace Bridge

/-- Modelled from the spec: the ad state enums `INTERSTITIAL_STATE`,
`REWARDED_STATE` and `BANNER_STATE` live in `src/constants.js`, which is not
part of the sources at hand; per the spec each is "an enum with at least
states READY|LOADING|SHOWING|FAILED|HIDDEN".  One shared finite enum with
those states stands in for all three. -/
inductive AdState where
  | ready
  | loading
  | showing
  | failed
  | hidden
deriving DecidableEq

/-- Modelled from the spec: the `EVENT_NAME` constants for the state-change
events (`src/constants.js` is not part of the sources at hand). -/
inductive EventName where
  | interstitialStateChanged
  | rewardedStateChanged
  | bannerStateChanged
  | visibilityStateChanged
deriving DecidableEq

/-- The ad-state related fields of a `PlatformBridgeBase` instance
(initialized to `null`, hence `Option`), together with the log of events
emitted so far through the `EventLite` mixin's `emit`. -/
structure AdContext where
  interstitialState : Option AdState
  rewardedState : Option AdState
  bannerState : Option AdState
  events : List (EventName × AdState)
deriving DecidableEq

/-- Embedding of `_setInterstitialState(state)`: return early when the new
state equals the current one and is not FAILED; otherwise store the state
and emit INTERSTITIAL_STATE_CHANGED with it. -/
def setInterstitialState (ctx : AdContext) (state : AdState) : AdContext :=
  if ctx.interstitialState = some state ∧ state ≠ AdState.failed then
    ctx
  else
    { ctx with
        interstitialState := some state
        events := ctx.events ++ [(EventName.interstitialStateChanged, state)] }

/-- Embedding of `_setRewardedState(state)`. -/
def setRewardedState (ctx : AdContext) (state : AdState) : AdContext :=
  if ctx.rewardedState = some state ∧ state ≠ AdState.failed then
    ctx
  else
    { ctx with
        rewardedState := some state
        events := ctx.events ++ [(EventName.rewardedStateChanged, state)] }

/-- Embedding of `_setBannerState(state)`. -/
def setBannerState (ctx : AdContext) (state : AdState) : AdContext :=
  if ctx.bannerState = some state ∧ state ≠ AdState.failed then
    ctx
  else
    { ctx with
        bannerState := some state
        events := ctx.events ++ [(EventName.bannerStateChanged, state)] }

/-- Claim C4: each ad-state setter emits its `*_STATE_CHANGED` event with
the new state unless the new state equals the current one and is not
FAILED; the stored field always ends up holding the value passed; setting
the same state twice in a row emits one event when the state is not FAILED
(starting from a different state) and two events when it is FAILED. -/
theorem setAdState_change_events (ctx : AdContext) (s : AdState) :
    ((setInterstitialState ctx s).events
        = ctx.events ++
            (if ctx.interstitialState = some s ∧ s ≠ AdState.failed then []
              else [(EventName.interstitialStateChanged, s)])) ∧
      (setInterstitialState ctx s).interstitialState = some s ∧
      ((setRewardedState ctx s).events
        = ctx.events ++
            (if ctx.rewardedState = some s ∧ s ≠ AdState.failed then []
              else [(EventName.rewardedStateChanged, s)])) ∧
      (setRewardedState ctx s).rewardedState = some s ∧
      ((setBannerState ctx s).events
        = ctx.events ++
            (if ctx.bannerState = some s ∧ s ≠ AdState.failed then []
              else [(EventName.bannerStateChanged, s)])) ∧
      (setBannerState ctx s).bannerState = some s ∧
      ((setInterstitialState (setInterstitialState ctx s) s).events
        = ctx.events ++
            (if s = AdState.failed then
                [(EventName.interstitialStateChanged, s),
                  (EventName.interstitialStateChanged, s)]
              else if ctx.interstitialState = some s then []
              else [(EventName.interstitialStateChanged, s)])) ∧
      ((setBannerState (setBannerState ctx s) s).events
        = ctx.events ++
            (if s = AdState.failed then
                [(EventName.bannerStateChanged, s), (EventName.bannerStateChanged, s)]
              else if ctx.bannerState = some s then []
              else [(EventName.bannerStateChanged, s)])) := by
  by_cases hf : s = AdState.failed
  · subst hf
    simp [setInterstitialState, setRewardedState, setBannerState]
  · by_cases hi : ctx.interstitialState = some s <;>
      by_cases hr : ctx.rewardedState = some s <;>
      by_cases hb : ctx.bannerState = some s <;>
      simp [setInterstitialState, setRewardedState, setBannerState, hf, hi, hr, hb]

end Bridge


namespace Bridge

/-- The decimal digit characters. -/
def digitChar (d : Nat) : Char :=
  match d with
  | 0 => '0' | 1 => '1' | 2 => '2' | 3 => '3' | 4 => '4'
  | 5 => '5' | 6 => '6' | 7 => '7' | 8 => '8' | _ => '9'

def isDigitChar (c : Char) : Bool :=
  48 ≤ c.toNat && c.toNat ≤ 57

def digitVal (c : Char) : Nat := c.toNat - 48

/-- Decimal digits of `n`, most significant first; `fuel` bounds the
recursion depth (any `fuel > n` is enough). -/
def natDigitsAux : Nat → Nat → List Char
  | 0, _ => []
  | fuel + 1, n =>
      if n < 10 then [digitChar n]
      else natDigitsAux fuel (n / 10) ++ [digitChar (n % 10)]

/-- Decimal representation of a natural number, as JS `String(n)` prints
it. -/
def natDigits (n : Nat) : List Char :=
  natDigitsAux (n + 1) n

theorem natDigitsAux_eq (fuel fuel' n : Nat) (h : n < fuel) (h' : n < fuel') :
    natDigitsAux fuel n = natDigitsAux fuel' n := by
  induction fuel generalizing fuel' n with
  | zero => omega
  | succ f ih =>
      cases fuel' with
      | zero => omega
      | succ f' =>
          simp only [natDigitsAux]
          by_cases h10 : n < 10
          · simp [h10]
          · simp only [h10, if_false]
            rw [ih f' (n / 10) (by omega) (by omega)]

theorem natDigits_ge10 (n : Nat) (h : 10 ≤ n) :
    natDigits n = natDigits (n / 10) ++ [digitChar (n % 10)] := by
  have h1 : natDigits n = natDigitsAux n (n / 10) ++ [digitChar (n % 10)] := by
    have h2 : natDigitsAux (n + 1) n
        = if n < 10 then [digitChar n]
          else natDigitsAux n (n / 10) ++ [digitChar (n % 10)] := rfl
    rw [natDigits, h2, if_neg (by omega)]
  rw [h1, natDigitsAux_eq n (n / 10 + 1) (n / 10) (by omega) (by omega)]
  rfl

theorem natDigits_lt10 (n : Nat) (h : n < 10) : natDigits n = [digitChar n] := by
  simp [natDigits, natDigitsAux, h]

theorem digitVal_digitChar (d : Nat) (h : d < 10) : digitVal (digitChar d) = d := by
  interval_cases d <;> decide

theorem isDigitChar_digitChar (d : Nat) (h : d < 10) : isDigitChar (digitChar d) = true := by
  interval_cases d <;> decide

theorem natDigits_ne_nil (n : Nat) : natDigits n ≠ [] := by
  by_cases h : n < 10
  · rw [natDigits_lt10 n h]
    simp
  · rw [natDigits_ge10 n (by omega)]
    simp

theorem natDigits_all_digits (n : Nat) : ∀ c ∈ natDigits n, isDigitChar c = true := by
  induction n using Nat.strong_induction_on with
  | _ n ih =>
      by_cases h : n < 10
      · rw [natDigits_lt10 n h]
        intro c hc
        simp at hc
        subst hc
        exact isDigitChar_digitChar n h
      · rw [natDigits_ge10 n (by omega)]
        intro c hc
        rw [List.mem_append] at hc
        rcases hc with hc | hc
        · exact ih (n / 10) (by omega) c hc
        · simp at hc
          subst hc
          exact isDigitChar_digitChar (n % 10) (by omega)

theorem natDigits_head_ne_zero (n : Nat) (h : 1 ≤ n) :
    ∀ c cs, natDigits n = c :: cs → c ≠ '0' := by
  induction n using Nat.strong_induction_on with
  | _ n ih =>
      by_cases h10 : n < 10
      · rw [natDigits_lt10 n h10]
        intro c cs hc
        simp at hc
        obtain ⟨hc1, _⟩ := hc
        subst hc1
        interval_cases n <;> decide
      · rw [natDigits_ge10 n (by omega)]
        intro c cs hc
        obtain ⟨c', cs', hcons⟩ : ∃ c' cs', natDigits (n / 10) = c' :: cs' := by
          cases hnd : natDigits (n / 10) with
          | nil => exact absurd hnd (natDigits_ne_nil _)
          | cons a b => exact ⟨a, b, rfl⟩
        rw [hcons] at hc
        simp at hc
        obtain ⟨hc1, _⟩ := hc
        rw [← hc1]
        exact ih (n / 10) (by omega) (by omega) c' cs' hcons

end Bridge

namespace Bridge

/-- Numeric value of a digit string, most significant digit first. -/
def digitsVal (ds : List Char) : Nat :=
  ds.foldl (fun acc c => 10 * acc + digitVal c) 0

/-- Split the longest digit run off the front of the input. -/
def takeDigits : List Char → List Char × List Char
  | [] => ([], [])
  | c :: cs =>
      if isDigitChar c then
        let p := takeDigits cs
        (c :: p.1, p.2)
      else ([], c :: cs)

/-- Parse a JSON natural-number literal: a nonempty digit run without a
leading zero (a single `0` is allowed), as `JSON.parse` accepts it. -/
def parseNat (cs : List Char) : Option (Nat × List Char) :=
  match takeDigits cs with
  | ([], _) => none
  | ([d], rest) => some (digitVal d, rest)
  | (d :: ds, rest) => if d = '0' then none else some (digitsVal (d :: ds), rest)

theorem digitsVal_snoc (ds : List Char) (c : Char) :
    digitsVal (ds ++ [c]) = 10 * digitsVal ds + digitVal c := by
  simp [digitsVal]

theorem digitsVal_natDigits (n : Nat) : digitsVal (natDigits n) = n := by
  induction n using Nat.strong_induction_on with
  | _ n ih =>
      by_cases h : n < 10
      · rw [natDigits_lt10 n h]
        simp [digitsVal]
        exact digitVal_digitChar n h
      · rw [natDigits_ge10 n (by omega), digitsVal_snoc, ih (n / 10) (by omega),
          digitVal_digitChar (n % 10) (by omega)]
        omega

theorem takeDigits_digits (ds : List Char) (hds : ∀ c ∈ ds, isDigitChar c = true)
    (rest : List Char) (hrest : ∀ c cs, rest = c :: cs → isDigitChar c = false) :
    takeDigits (ds ++ rest) = (ds, rest) := by
  induction ds with
  | nil =>
      cases rest with
      | nil => rfl
      | cons c cs =>
          simp only [List.nil_append, takeDigits]
          rw [hrest c cs rfl]
          simp
  | cons d ds ih =>
      simp only [List.cons_append, takeDigits]
      rw [hds d (by simp)]
      simp only [if_true, List.append_eq]
      rw [ih (fun c hc => hds c (by simp [hc]))]

theorem parseNat_natDigits (n : Nat) (rest : List Char)
    (hrest : ∀ c cs, rest = c :: cs → isDigitChar c = false) :
    parseNat (natDigits n ++ rest) = some (n, rest) := by
  have htd : takeDigits (natDigits n ++ rest) = (natDigits n, rest) :=
    takeDigits_digits (natDigits n) (natDigits_all_digits n) rest hrest
  by_cases h : n < 10
  · rw [natDigits_lt10 n h] at htd ⊢
    simp only [parseNat, htd]
    rw [digitVal_digitChar n h]
  · obtain ⟨c, cs, hcons⟩ : ∃ c cs, natDigits n = c :: cs := by
      cases hnd : natDigits n with
      | nil => exact absurd hnd (natDigits_ne_nil n)
      | cons a b => exact ⟨a, b, rfl⟩
    have hc0 : c ≠ '0' := natDigits_head_ne_zero n (by omega) c cs hcons
    have hcs : cs ≠ [] := by
      intro hnil
      rw [hnil] at hcons
      have := digitsVal_natDigits n
      rw [hcons] at this
      simp [digitsVal] at this
      have hd : digitVal c ≤ 9 := by
        have hdig := natDigits_all_digits n c (by rw [hcons]; simp)
        simp [isDigitChar] at hdig
        simp [digitVal]
        omega
      omega
    rw [hcons] at htd ⊢
    obtain ⟨c2, cs2, hcons2⟩ : ∃ c2 cs2, cs = c2 :: cs2 := by
      cases cs with
      | nil => exact absurd rfl hcs
      | cons a b => exact ⟨a, b, rfl⟩
    rw [hcons2] at htd ⊢
    simp only [parseNat, htd, if_neg hc0]
    have := digitsVal_natDigits n
    rw [hcons, hcons2] at this
    rw [this]

/-- Decimal representation of an integer, as JS prints integral numbers. -/
def intToChars : Int → List Char
  | Int.ofNat m => natDigits m
  | Int.negSucc m => '-' :: natDigits (m + 1)

end Bridge

namespace Bridge

mutual

/-- A JSON-representable JavaScript value.  Numbers are modelled by the
integers (the JS engine's doubles print without a decimal point exactly on
integral values; non-integral numbers are outside this model). -/
inductive JSValue where
  | jnull
  | jbool (b : Bool)
  | jnum (n : Int)
  | jstr (s : String)
  | jarr (elems : JSList)
  | jobj (fields : JSFields)
deriving DecidableEq

/-- A JS array of values (spine kept as a dedicated type so that all
recursion over values is structural). -/
inductive JSList where
  | nil
  | cons (hd : JSValue) (tl : JSList)
deriving DecidableEq

/-- The fields of a JS object, in insertion order. -/
inductive JSFields where
  | nil
  | cons (key : String) (val : JSValue) (tl : JSFields)
deriving DecidableEq

end

/-- Whitespace accepted between JSON tokens. -/
def isJsonWs (c : Char) : Bool :=
  c = ' ' || c = '\t' || c = '\n' || c = '\x0d'

/-- Parse a JSON number literal restricted to the integer grammar:
optional minus sign, then digits.  (A fraction or exponent part makes the
surrounding parse fail, consistent with the integer-only number model.) -/
def parseNumber (cs : List Char) : Option (JSValue × List Char) :=
  match cs with
  | [] => none
  | c :: rest =>
      if c = '-' then
        (parseNat rest).map (fun p => (JSValue.jnum (-(p.1 : Int)), p.2))
      else
        (parseNat (c :: rest)).map (fun p => (JSValue.jnum (p.1 : Int), p.2))

theorem isDigitChar_props (c : Char) (h : isDigitChar c = true) :
    c ≠ '-' ∧ c ≠ '"' ∧ c ≠ '[' ∧ c ≠ '{' ∧ c ≠ 'n' ∧ c ≠ 't' ∧ c ≠ 'f' ∧
      c ≠ ']' ∧ c ≠ '}' ∧ c ≠ ',' ∧ c ≠ ':' ∧ isJsonWs c = false := by
  refine ⟨?_, ?_, ?_, ?_, ?_, ?_, ?_, ?_, ?_, ?_, ?_, ?_⟩ <;>
    first
      | (intro hEq; subst hEq; exact absurd h (by decide))
      | (simp only [isJsonWs, Bool.or_eq_false_iff, decide_eq_false_iff_not]
         refine ⟨⟨⟨?_, ?_⟩, ?_⟩, ?_⟩ <;> (intro hEq; subst hEq; exact absurd h (by decide)))

theorem natDigits_head (n : Nat) :
    ∃ c cs, natDigits n = c :: cs ∧ isDigitChar c = true := by
  cases hnd : natDigits n with
  | nil => exact absurd hnd (natDigits_ne_nil n)
  | cons a b =>
      refine ⟨a, b, rfl, ?_⟩
      exact natDigits_all_digits n a (by rw [hnd]; simp)

theorem parseNumber_intToChars (n : Int) (rest : List Char)
    (hrest : ∀ c cs, rest = c :: cs → isDigitChar c = false) :
    parseNumber (intToChars n ++ rest) = some (JSValue.jnum n, rest) := by
  cases n with
  | ofNat m =>
      obtain ⟨c, cs, hcons, hdig⟩ := natDigits_head m
      simp only [intToChars, hcons, List.cons_append, parseNumber]
      rw [if_neg (isDigitChar_props c hdig).1]
      rw [← List.cons_append, ← hcons, parseNat_natDigits m rest hrest]
      simp
  | negSucc m =>
      simp only [intToChars, List.cons_append, parseNumber, if_pos rfl]
      rw [parseNat_natDigits (m + 1) rest hrest]
      simp [Int.negSucc_eq]

end Bridge

namespace Bridge

/-- The hexadecimal digit characters (lowercase, as `JSON.stringify`
prints control-character escapes). -/
def hexDigitChar (d : Nat) : Char :=
  if d < 10 then digitChar d
  else match d with
    | 10 => 'a' | 11 => 'b' | 12 => 'c' | 13 => 'd' | 14 => 'e' | _ => 'f'

/-- Value of a hexadecimal digit character, accepting both cases. -/
def hexDigitVal (c : Char) : Option Nat :=
  if isDigitChar c then some (c.toNat - 48)
  else if 97 ≤ c.toNat && c.toNat ≤ 102 then some (c.toNat - 87)
  else if 65 ≤ c.toNat && c.toNat ≤ 70 then some (c.toNat - 55)
  else none

/-- How `JSON.stringify` escapes one character inside a string literal:
quote and backslash get a backslash escape, the control characters with
short escapes use them, the remaining control characters use `\u00XX`, and
everything else is emitted verbatim. -/
def escapeChar (c : Char) : List Char :=
  if c = '"' then ['\\', '"']
  else if c = '\\' then ['\\', '\\']
  else if c = '\x08' then ['\\', 'b']
  else if c = '\t' then ['\\', 't']
  else if c = '\n' then ['\\', 'n']
  else if c = '\x0c' then ['\\', 'f']
  else if c = '\x0d' then ['\\', 'r']
  else if c.toNat < 32 then
    ['\\', 'u', '0', '0', hexDigitChar (c.toNat / 16), hexDigitChar (c.toNat % 16)]
  else [c]

def escapeList : List Char → List Char
  | [] => []
  | c :: cs => escapeChar c ++ escapeList cs

/-- Decode the character following a backslash in a JSON string literal. -/
def decodeEscape : List Char → Option (Char × List Char)
  | [] => none
  | c :: rest =>
      if c = '"' then some ('"', rest)
      else if c = '\\' then some ('\\', rest)
      else if c = '/' then some ('/', rest)
      else if c = 'b' then some ('\x08', rest)
      else if c = 'f' then some ('\x0c', rest)
      else if c = 'n' then some ('\n', rest)
      else if c = 'r' then some ('\x0d', rest)
      else if c = 't' then some ('\t', rest)
      else if c = 'u' then
        match rest with
        | h1 :: h2 :: h3 :: h4 :: rest2 =>
            match hexDigitVal h1, hexDigitVal h2, hexDigitVal h3, hexDigitVal h4 with
            | some a, some b, some c2, some d =>
                some (Char.ofNat (((a * 16 + b) * 16 + c2) * 16 + d), rest2)
            | _, _, _, _ => none
        | _ => none
      else none

/-- Parse the body of a JSON string literal (everything after the opening
quote), returning the decoded characters and the input past the closing
quote.  `fuel` bounds the number of decoded characters. -/
def parseStringBody : Nat → List Char → Option (List Char × List Char)
  | _, [] => none
  | 0, _ => none
  | fuel + 1, c :: cs =>
      if c = '"' then some ([], cs)
      else if c = '\\' then
        match decodeEscape cs with
        | some p => (parseStringBody fuel p.2).map (fun q => (p.1 :: q.1, q.2))
        | none => none
      else if c.toNat < 32 then none
      else (parseStringBody fuel cs).map (fun q => (c :: q.1, q.2))

theorem hexDigitVal_hexDigitChar (d : Nat) (h : d < 16) :
    hexDigitVal (hexDigitChar d) = some d := by
  interval_cases d <;> decide

theorem decodeEscape_u (c : Char) (h : c.toNat < 32) (tail : List Char) :
    decodeEscape
        ('u' :: '0' :: '0' :: hexDigitChar (c.toNat / 16) :: hexDigitChar (c.toNat % 16) :: tail)
      = some (c, tail) := by
  have h0 : hexDigitVal '0' = some 0 := by decide
  have h1 : hexDigitVal (hexDigitChar (c.toNat / 16)) = some (c.toNat / 16) :=
    hexDigitVal_hexDigitChar _ (by omega)
  have h2 : hexDigitVal (hexDigitChar (c.toNat % 16)) = some (c.toNat % 16) :=
    hexDigitVal_hexDigitChar _ (by omega)
  simp only [decodeEscape, h0, h1, h2]
  simp
  rw [show c.toNat / 16 * 16 + c.toNat % 16 = c.toNat from by omega, Char.ofNat_toNat]

theorem parseStringBody_step_escape (f : Nat) (input rest2 : List Char) (c : Char)
    (hdec : decodeEscape input = some (c, rest2)) :
    parseStringBody (f + 1) ('\\' :: input)
      = (parseStringBody f rest2).map (fun q => (c :: q.1, q.2)) := by
  simp [parseStringBody, hdec]

theorem parseStringBody_escapeList (s : List Char) :
    ∀ (rest : List Char) (fuel : Nat), s.length + 1 ≤ fuel →
      parseStringBody fuel (escapeList s ++ '"' :: rest) = some (s, rest) := by
  induction s with
  | nil =>
      intro rest fuel hfuel
      cases fuel with
      | zero => omega
      | succ f => simp [escapeList, parseStringBody]
  | cons c cs ih =>
      intro rest fuel hfuel
      cases fuel with
      | zero => simp at hfuel
      | succ f =>
          have hf : cs.length + 1 ≤ f := by
            simp at hfuel
            omega
          have hih := ih rest f hf
          simp only [escapeList, List.append_assoc]
          by_cases h1 : c = '"'
          · subst h1
            rw [show escapeChar '"' = ['\\', '"'] from by decide]
            rw [show (['\\', '"'] : List Char) ++ (escapeList cs ++ '"' :: rest)
                = '\\' :: '"' :: (escapeList cs ++ '"' :: rest) from rfl]
            rw [parseStringBody_step_escape f ('"' :: (escapeList cs ++ '"' :: rest))
                (escapeList cs ++ '"' :: rest) '"' (by simp [decodeEscape]), hih]
            rfl
          by_cases h2 : c = '\\'
          · subst h2
            rw [show escapeChar '\\' = ['\\', '\\'] from by decide]
            rw [show (['\\', '\\'] : List Char) ++ (escapeList cs ++ '"' :: rest)
                = '\\' :: '\\' :: (escapeList cs ++ '"' :: rest) from rfl]
            rw [parseStringBody_step_escape f ('\\' :: (escapeList cs ++ '"' :: rest))
                (escapeList cs ++ '"' :: rest) '\\' (by simp [decodeEscape]), hih]
            rfl
          by_cases h3 : c = '\x08'
          · subst h3
            rw [show escapeChar '\x08' = ['\\', 'b'] from by decide]
            rw [show (['\\', 'b'] : List Char) ++ (escapeList cs ++ '"' :: rest)
                = '\\' :: 'b' :: (escapeList cs ++ '"' :: rest) from rfl]
            rw [parseStringBody_step_escape f ('b' :: (escapeList cs ++ '"' :: rest))
                (escapeList cs ++ '"' :: rest) '\x08' (by simp [decodeEscape]), hih]
            rfl
          by_cases h4 : c = '\t'
          · subst h4
            rw [show escapeChar '\t' = ['\\', 't'] from by decide]
            rw [show (['\\', 't'] : List Char) ++ (escapeList cs ++ '"' :: rest)
                = '\\' :: 't' :: (escapeList cs ++ '"' :: rest) from rfl]
            rw [parseStringBody_step_escape f ('t' :: (escapeList cs ++ '"' :: rest))
                (escapeList cs ++ '"' :: rest) '\t' (by simp [decodeEscape]), hih]
            rfl
          by_cases h5 : c = '\n'
          · subst h5
            rw [show escapeChar '\n' = ['\\', 'n'] from by decide]
            rw [show (['\\', 'n'] : List Char) ++ (escapeList cs ++ '"' :: rest)
                = '\\' :: 'n' :: (escapeList cs ++ '"' :: rest) from rfl]
            rw [parseStringBody_step_escape f ('n' :: (escapeList cs ++ '"' :: rest))
                (escapeList cs ++ '"' :: rest) '\n' (by simp [decodeEscape]), hih]
            rfl
          by_cases h6 : c = '\x0c'
          · subst h6
            rw [show escapeChar '\x0c' = ['\\', 'f'] from by decide]
            rw [show (['\\', 'f'] : List Char) ++ (escapeList cs ++ '"' :: rest)
                = '\\' :: 'f' :: (escapeList cs ++ '"' :: rest) from rfl]
            rw [parseStringBody_step_escape f ('f' :: (escapeList cs ++ '"' :: rest))
                (escapeList cs ++ '"' :: rest) '\x0c' (by simp [decodeEscape]), hih]
            rfl
          by_cases h7 : c = '\x0d'
          · subst h7
            rw [show escapeChar '\x0d' = ['\\', 'r'] from by decide]
            rw [show (['\\', 'r'] : List Char) ++ (escapeList cs ++ '"' :: rest)
                = '\\' :: 'r' :: (escapeList cs ++ '"' :: rest) from rfl]
            rw [parseStringBody_step_escape f ('r' :: (escapeList cs ++ '"' :: rest))
                (escapeList cs ++ '"' :: rest) '\x0d' (by simp [decodeEscape]), hih]
            rfl
          by_cases h8 : c.toNat < 32
          · rw [show escapeChar c
                = ['\\', 'u', '0', '0', hexDigitChar (c.toNat / 16), hexDigitChar (c.toNat % 16)]
                from by simp [escapeChar, h1, h2, h3, h4, h5, h6, h7, h8]]
            rw [show (['\\', 'u', '0', '0', hexDigitChar (c.toNat / 16),
                  hexDigitChar (c.toNat % 16)] : List Char) ++ (escapeList cs ++ '"' :: rest)
                = '\\' :: 'u' :: '0' :: '0' :: hexDigitChar (c.toNat / 16)
                    :: hexDigitChar (c.toNat % 16) :: (escapeList cs ++ '"' :: rest) from rfl]
            rw [parseStringBody_step_escape f
                ('u' :: '0' :: '0' :: hexDigitChar (c.toNat / 16)
                  :: hexDigitChar (c.toNat % 16) :: (escapeList cs ++ '"' :: rest))
                (escapeList cs ++ '"' :: rest) c
                (decodeEscape_u c h8 (escapeList cs ++ '"' :: rest)), hih]
            rfl
          · rw [show escapeChar c = [c] from by
              simp [escapeChar, h1, h2, h3, h4, h5, h6, h7, h8]]
            rw [show ([c] : List Char) ++ (escapeList cs ++ '"' :: rest)
                = c :: (escapeList cs ++ '"' :: rest) from rfl]
            have hstep : parseStringBody (f + 1) (c :: (escapeList cs ++ '"' :: rest))
                = (parseStringBody f (escapeList cs ++ '"' :: rest)).map
                    (fun q => (c :: q.1, q.2)) := by
              simp [parseStringBody, h1, h2, h8]
            rw [hstep, hih]
            rfl

end Bridge

namespace Bridge

/-- Drop leading JSON whitespace. -/
def skipWs : List Char → List Char
  | [] => []
  | c :: cs => if isJsonWs c then skipWs cs else c :: cs

mutual

/-- The characters `JSON.stringify` emits for a value (no spacing). -/
def stringifyV : JSValue → List Char
  | JSValue.jnull => ['n', 'u', 'l', 'l']
  | JSValue.jbool true => ['t', 'r', 'u', 'e']
  | JSValue.jbool false => ['f', 'a', 'l', 's', 'e']
  | JSValue.jnum n => intToChars n
  | JSValue.jstr s => '"' :: (escapeList s.data ++ ['"'])
  | JSValue.jarr l => '[' :: (stringifyL l ++ [']'])
  | JSValue.jobj f => '{' :: (stringifyF f ++ ['}'])

/-- Comma-separated stringified elements of an array. -/
def stringifyL : JSList → List Char
  | JSList.nil => []
  | JSList.cons v JSList.nil => stringifyV v
  | JSList.cons v (JSList.cons w tl) =>
      stringifyV v ++ ',' :: stringifyL (JSList.cons w tl)

/-- Comma-separated stringified `"key":value` members of an object. -/
def stringifyF : JSFields → List Char
  | JSFields.nil => []
  | JSFields.cons k v JSFields.nil =>
      '"' :: (escapeList k.data ++ '"' :: ':' :: stringifyV v)
  | JSFields.cons k v (JSFields.cons k2 w tl) =>
      '"' :: (escapeList k.data ++ '"' :: ':' :: stringifyV v)
        ++ ',' :: stringifyF (JSFields.cons k2 w tl)

end

mutual

/-- Parse one JSON value (after the grammar of `JSON.parse`, restricted to
integer numbers); returns the value and the unconsumed input.  `fuel`
bounds the recursion depth. -/
def parseValue : Nat → List Char → Option (JSValue × List Char)
  | 0, _ => none
  | fuel + 1, cs =>
      match skipWs cs with
      | [] => none
      | c :: rest =>
          if c = '"' then
            (parseStringBody fuel rest).map
              (fun p => (JSValue.jstr (String.mk p.1), p.2))
          else if c = '[' then
            match skipWs rest with
            | [] => none
            | c2 :: rest2 =>
                if c2 = ']' then some (JSValue.jarr JSList.nil, rest2)
                else
                  (parseElems fuel (c2 :: rest2)).map
                    (fun p => (JSValue.jarr p.1, p.2))
          else if c = '{' then
            match skipWs rest with
            | [] => none
            | c2 :: rest2 =>
                if c2 = '}' then some (JSValue.jobj JSFields.nil, rest2)
                else
                  (parseMembers fuel (c2 :: rest2)).map
                    (fun p => (JSValue.jobj p.1, p.2))
          else if c = 'n' then
            match rest with
            | 'u' :: 'l' :: 'l' :: rest2 => some (JSValue.jnull, rest2)
            | _ => none
          else if c = 't' then
            match rest with
            | 'r' :: 'u' :: 'e' :: rest2 => some (JSValue.jbool true, rest2)
            | _ => none
          else if c = 'f' then
            match rest with
            | 'a' :: 'l' :: 's' :: 'e' :: rest2 => some (JSValue.jbool false, rest2)
            | _ => none
          else parseNumber (c :: rest)

/-- Parse one or more comma-separated array elements followed by `]`. -/
def parseElems : Nat → List Char → Option (JSList × List Char)
  | 0, _ => none
  | fuel + 1, cs =>
      match parseValue fuel cs with
      | none => none
      | some (v, rest) =>
          match skipWs rest with
          | [] => none
          | c :: rest2 =>
              if c = ',' then
                (parseElems fuel rest2).map (fun p => (JSList.cons v p.1, p.2))
              else if c = ']' then some (JSList.cons v JSList.nil, rest2)
              else none

/-- Parse one or more comma-separated `"key":value` members followed by
`}`. -/
def parseMembers : Nat → List Char → Option (JSFields × List Char)
  | 0, _ => none
  | fuel + 1, cs =>
      match skipWs cs with
      | [] => none
      | c :: rest =>
          if c = '"' then
            match parseStringBody fuel rest with
            | none => none
            | some (k, rest2) =>
                match skipWs rest2 with
                | [] => none
                | c2 :: rest3 =>
                    if c2 = ':' then
                      match parseValue fuel rest3 with
                      | none => none
                      | some (v, rest4) =>
                          match skipWs rest4 with
                          | [] => none
                          | c3 :: rest5 =>
                              if c3 = ',' then
                                (parseMembers fuel rest5).map
                                  (fun p => (JSFields.cons (String.mk k) v p.1, p.2))
                              else if c3 = '}' then
                                some (JSFields.cons (String.mk k) v JSFields.nil, rest5)
                              else none
                    else none
          else none

end

/-- Embedding of `JSON.stringify` (restricted to the modelled values). -/
def stringifyJson (v : JSValue) : String :=
  String.mk (stringifyV v)

/-- Embedding of `JSON.parse`, as used by `_getDataFromLocalStorage`:
`none` models a thrown `SyntaxError`.  The whole input must be one JSON
value surrounded only by whitespace. -/
def parseJson (s : String) : Option JSValue :=
  match parseValue (2 * s.data.length + 2) s.data with
  | some (v, rest) => if skipWs rest = [] then some v else none
  | none => none


end Bridge

namespace Bridge

mutual

/-- Fuel sufficient for `parseValue` to parse the stringified value. -/
def jmeasureV : JSValue → Nat
  | JSValue.jnull => 1
  | JSValue.jbool _ => 1
  | JSValue.jnum _ => 1
  | JSValue.jstr s => s.data.length + 2
  | JSValue.jarr l => jmeasureL l + 1
  | JSValue.jobj f => jmeasureF f + 1

def jmeasureL : JSList → Nat
  | JSList.nil => 1
  | JSList.cons v tl => jmeasureV v + jmeasureL tl + 1

def jmeasureF : JSFields → Nat
  | JSFields.nil => 1
  | JSFields.cons k v tl => k.data.length + jmeasureV v + jmeasureF tl + 2

end

theorem jmeasureV_pos (v : JSValue) : 1 ≤ jmeasureV v := by
  cases v <;> simp [jmeasureV]

theorem jmeasureL_pos (l : JSList) : 1 ≤ jmeasureL l := by
  cases l <;> simp [jmeasureL]

theorem jmeasureF_pos (f : JSFields) : 1 ≤ jmeasureF f := by
  cases f <;> simp [jmeasureF]

theorem intToChars_ne_nil (n : Int) : intToChars n ≠ [] := by
  cases n with
  | ofNat m => exact natDigits_ne_nil m
  | negSucc m => simp [intToChars]

/-- The first character of a stringified value: never whitespace and never
a closing bracket. -/
theorem stringifyV_head (v : JSValue) :
    ∃ c cs, stringifyV v = c :: cs ∧ isJsonWs c = false ∧ c ≠ ']' := by
  cases v with
  | jnull => exact ⟨'n', _, rfl, by decide, by decide⟩
  | jbool b => cases b with
      | true => exact ⟨'t', _, rfl, by decide, by decide⟩
      | false => exact ⟨'f', _, rfl, by decide, by decide⟩
  | jnum n =>
      cases n with
      | ofNat m =>
          obtain ⟨c, cs, hcons, hdig⟩ := natDigits_head m
          refine ⟨c, cs, hcons, ?_, ?_⟩
          · exact (isDigitChar_props c hdig).2.2.2.2.2.2.2.2.2.2.2
          · exact (isDigitChar_props c hdig).2.2.2.2.2.2.2.1
      | negSucc m => exact ⟨'-', _, rfl, by decide, by decide⟩
  | jstr s => exact ⟨'"', _, rfl, by decide, by decide⟩
  | jarr l => exact ⟨'[', _, rfl, by decide, by decide⟩
  | jobj f => exact ⟨'{', _, rfl, by decide, by decide⟩

theorem skipWs_not_ws {c : Char} (h : isJsonWs c = false) (cs : List Char) :
    skipWs (c :: cs) = c :: cs := by
  simp [skipWs, h]

end Bridge

namespace Bridge

theorem stringifyL_cons_split (w : JSValue) (tl : JSList) :
    ∃ t, stringifyL (JSList.cons w tl) = stringifyV w ++ t := by
  cases tl with
  | nil => exact ⟨[], by simp [stringifyL]⟩
  | cons x y => exact ⟨',' :: stringifyL (JSList.cons x y), rfl⟩

theorem stringifyF_cons_split (k : String) (v : JSValue) (tl : JSFields) :
    ∃ t, stringifyF (JSFields.cons k v tl) = '"' :: t := by
  cases tl with
  | nil => exact ⟨escapeList k.data ++ '"' :: ':' :: stringifyV v, rfl⟩
  | cons k2 w y =>
      exact ⟨(escapeList k.data ++ '"' :: ':' :: stringifyV v)
        ++ ',' :: stringifyF (JSFields.cons k2 w y), rfl⟩

theorem stringMk_data (s : String) : String.mk s.data = s := rfl

mutual

theorem parseValue_stringify (v : JSValue) (rest : List Char) (fuel : Nat)
    (hfuel : jmeasureV v ≤ fuel)
    (hrest : ∀ c cs, rest = c :: cs → isDigitChar c = false) :
    parseValue fuel (stringifyV v ++ rest) = some (v, rest) := by
  cases fuel with
  | zero =>
      have := jmeasureV_pos v
      omega
  | succ f =>
      cases v with
      | jnull => simp [stringifyV, parseValue, skipWs, isJsonWs]
      | jbool b => cases b <;> simp [stringifyV, parseValue, skipWs, isJsonWs]
      | jnum n =>
          cases n with
          | ofNat m =>
              obtain ⟨c, cs, hcons, hdig⟩ := natDigits_head m
              obtain ⟨hm, hq, hlb, hlc, hn, ht, hf2, hrb, hrc, hcm, hcl, hws⟩ :=
                isDigitChar_props c hdig
              have h0 : stringifyV (JSValue.jnum (Int.ofNat m)) = natDigits m := rfl
              rw [h0, hcons]
              simp only [List.cons_append]
              have h1 : parseValue (f + 1) (c :: (cs ++ rest))
                  = parseNumber (c :: (cs ++ rest)) := by
                simp only [parseValue, skipWs_not_ws hws]
                rw [if_neg hq, if_neg hlb, if_neg hlc, if_neg hn, if_neg ht, if_neg hf2]
              rw [h1, ← List.cons_append, ← hcons]
              exact parseNumber_intToChars (Int.ofNat m) rest hrest
          | negSucc m =>
              have h0 : stringifyV (JSValue.jnum (Int.negSucc m))
                  = '-' :: natDigits (m + 1) := rfl
              rw [h0]
              simp only [List.cons_append]
              have h1 : parseValue (f + 1) ('-' :: (natDigits (m + 1) ++ rest))
                  = parseNumber ('-' :: (natDigits (m + 1) ++ rest)) := by
                simp only [parseValue, skipWs_not_ws (by decide : isJsonWs '-' = false)]
                rw [if_neg (by decide), if_neg (by decide), if_neg (by decide),
                  if_neg (by decide), if_neg (by decide), if_neg (by decide)]
              rw [h1, ← List.cons_append]
              exact parseNumber_intToChars (Int.negSucc m) rest hrest
      | jstr s =>
          have h0 : stringifyV (JSValue.jstr s) ++ rest
              = '"' :: (escapeList s.data ++ '"' :: rest) := by
            simp [stringifyV]
          rw [h0]
          have h1 : parseValue (f + 1) ('"' :: (escapeList s.data ++ '"' :: rest))
              = (parseStringBody f (escapeList s.data ++ '"' :: rest)).map
                  (fun p => (JSValue.jstr (String.mk p.1), p.2)) := by
            simp [parseValue, skipWs, isJsonWs]
          rw [h1, parseStringBody_escapeList s.data rest f
            (by simp only [jmeasureV] at hfuel; omega)]
          rfl
      | jarr l =>
          cases l with
          | nil =>
              have h0 : stringifyV (JSValue.jarr JSList.nil) ++ rest
                  = '[' :: ']' :: rest := by
                simp [stringifyV, stringifyL]
              rw [h0]
              simp [parseValue, skipWs, isJsonWs]
          | cons w tl =>
              obtain ⟨t, ht⟩ := stringifyL_cons_split w tl
              obtain ⟨c0, cs0, hhead, hws0, hne0⟩ := stringifyV_head w
              have h0 : stringifyV (JSValue.jarr (JSList.cons w tl)) ++ rest
                  = '[' :: (c0 :: (cs0 ++ (t ++ ']' :: rest))) := by
                simp [stringifyV, ht, hhead]
              rw [h0]
              have hstep : parseValue (f + 1) ('[' :: (c0 :: (cs0 ++ (t ++ ']' :: rest))))
                  = (parseElems f (c0 :: (cs0 ++ (t ++ ']' :: rest)))).map
                      (fun p => (JSValue.jarr p.1, p.2)) := by
                simp [parseValue, skipWs_not_ws (by decide : isJsonWs '[' = false),
                  skipWs_not_ws hws0, hne0]
              rw [hstep]
              have hback : c0 :: (cs0 ++ (t ++ ']' :: rest))
                  = stringifyL (JSList.cons w tl) ++ ']' :: rest := by
                rw [ht, hhead]
                simp
              rw [hback, parseElems_stringify w tl rest f
                (by simp only [jmeasureV] at hfuel; omega)]
              rfl
      | jobj fs =>
          cases fs with
          | nil =>
              have h0 : stringifyV (JSValue.jobj JSFields.nil) ++ rest
                  = '{' :: '}' :: rest := by
                simp [stringifyV, stringifyF]
              rw [h0]
              simp [parseValue, skipWs, isJsonWs]
          | cons k w tl =>
              obtain ⟨t, ht⟩ := stringifyF_cons_split k w tl
              have h0 : stringifyV (JSValue.jobj (JSFields.cons k w tl)) ++ rest
                  = '{' :: ('"' :: (t ++ '}' :: rest)) := by
                simp [stringifyV, ht]
              rw [h0]
              have hstep : parseValue (f + 1) ('{' :: ('"' :: (t ++ '}' :: rest)))
                  = (parseMembers f ('"' :: (t ++ '}' :: rest))).map
                      (fun p => (JSValue.jobj p.1, p.2)) := by
                simp [parseValue, skipWs, isJsonWs]
              rw [hstep]
              have hback : ('"' :: (t ++ '}' :: rest))
                  = stringifyF (JSFields.cons k w tl) ++ '}' :: rest := by
                rw [ht]
                simp
              rw [hback, parseMembers_stringify k w tl rest f
                (by simp only [jmeasureV] at hfuel; omega)]
              rfl
termination_by fuel
decreasing_by all_goals omega

theorem parseElems_stringify (v : JSValue) (tl : JSList) (rest : List Char) (fuel : Nat)
    (hfuel : jmeasureL (JSList.cons v tl) ≤ fuel) :
    parseElems fuel (stringifyL (JSList.cons v tl) ++ ']' :: rest)
      = some (JSList.cons v tl, rest) := by
  cases fuel with
  | zero =>
      have := jmeasureL_pos (JSList.cons v tl)
      omega
  | succ f =>
      cases tl with
      | nil =>
          have h0 : stringifyL (JSList.cons v JSList.nil) ++ ']' :: rest
              = stringifyV v ++ ']' :: rest := by
            simp [stringifyL]
          rw [h0]
          have hv := parseValue_stringify v (']' :: rest) f
            (by simp only [jmeasureL] at hfuel; omega)
            (by intro c cs h; cases h; decide)
          simp [parseElems, hv, skipWs, isJsonWs]
      | cons w tl2 =>
          have h0 : stringifyL (JSList.cons v (JSList.cons w tl2)) ++ ']' :: rest
              = stringifyV v ++ (',' :: (stringifyL (JSList.cons w tl2) ++ ']' :: rest)) := by
            simp [stringifyL]
          rw [h0]
          have hv := parseValue_stringify v
            (',' :: (stringifyL (JSList.cons w tl2) ++ ']' :: rest)) f
            (by simp only [jmeasureL] at hfuel; omega)
            (by intro c cs h; cases h; decide)
          have hrec := parseElems_stringify w tl2 rest f
            (by simp only [jmeasureL] at hfuel ⊢; omega)
          simp [parseElems, hv, hrec, skipWs, isJsonWs]
termination_by fuel
decreasing_by all_goals omega

theorem parseMembers_stringify (k : String) (v : JSValue) (tl : JSFields)
    (rest : List Char) (fuel : Nat)
    (hfuel : jmeasureF (JSFields.cons k v tl) ≤ fuel) :
    parseMembers fuel (stringifyF (JSFields.cons k v tl) ++ '}' :: rest)
      = some (JSFields.cons k v tl, rest) := by
  cases fuel with
  | zero =>
      have := jmeasureF_pos (JSFields.cons k v tl)
      omega
  | succ f =>
      cases tl with
      | nil =>
          have h0 : stringifyF (JSFields.cons k v JSFields.nil) ++ '}' :: rest
              = '"' :: (escapeList k.data ++ '"' :: (':' :: (stringifyV v ++ '}' :: rest))) := by
            simp [stringifyF]
          rw [h0]
          have hk := parseStringBody_escapeList k.data
            (':' :: (stringifyV v ++ '}' :: rest)) f
            (by have := jmeasureV_pos v
                simp only [jmeasureF] at hfuel
                omega)
          have hv := parseValue_stringify v ('}' :: rest) f
            (by simp only [jmeasureF] at hfuel; omega)
            (by intro c cs h; cases h; decide)
          simp [parseMembers, hk, hv, skipWs, isJsonWs, stringMk_data]
      | cons k2 w tl2 =>
          have h0 : stringifyF (JSFields.cons k v (JSFields.cons k2 w tl2)) ++ '}' :: rest
              = '"' :: (escapeList k.data ++ '"' :: (':' :: (stringifyV v
                  ++ ',' :: (stringifyF (JSFields.cons k2 w tl2) ++ '}' :: rest)))) := by
            simp [stringifyF]
          rw [h0]
          have hk := parseStringBody_escapeList k.data
            (':' :: (stringifyV v ++ ',' :: (stringifyF (JSFields.cons k2 w tl2) ++ '}' :: rest))) f
            (by have := jmeasureV_pos v
                have := jmeasureF_pos (JSFields.cons k2 w tl2)
                simp only [jmeasureF] at hfuel
                omega)
          have hv := parseValue_stringify v
            (',' :: (stringifyF (JSFields.cons k2 w tl2) ++ '}' :: rest)) f
            (by have := jmeasureF_pos (JSFields.cons k2 w tl2)
                simp only [jmeasureF] at hfuel
                omega)
            (by intro c cs h; cases h; decide)
          have hrec := parseMembers_stringify k2 w tl2 rest f
            (by simp only [jmeasureF] at hfuel ⊢; omega)
          simp [parseMembers, hk, hv, hrec, skipWs, isJsonWs, stringMk_data]
termination_by fuel
decreasing_by all_goals omega

end

end Bridge

namespace Bridge

theorem escapeChar_length (c : Char) : 1 ≤ (escapeChar c).length := by
  unfold escapeChar
  split_ifs <;> simp

theorem escapeList_length (s : List Char) : s.length ≤ (escapeList s).length := by
  induction s with
  | nil => simp [escapeList]
  | cons c cs ih =>
      simp only [escapeList, List.length_append, List.length_cons]
      have := escapeChar_length c
      omega

mutual

theorem stringify_length_V : ∀ v : JSValue, jmeasureV v ≤ 2 * (stringifyV v).length
  | JSValue.jnull => by simp [jmeasureV, stringifyV]
  | JSValue.jbool b => by cases b <;> simp [jmeasureV, stringifyV]
  | JSValue.jnum n => by
      have hne := intToChars_ne_nil n
      cases h : intToChars n with
      | nil => exact absurd h hne
      | cons c cs =>
          simp [jmeasureV, stringifyV, h]
          omega
  | JSValue.jstr s => by
      have h1 := escapeList_length s.data
      have h2 : s.length = s.data.length := rfl
      simp [jmeasureV, stringifyV]
      omega
  | JSValue.jarr l => by
      have := stringify_length_L l
      simp [jmeasureV, stringifyV]
      omega
  | JSValue.jobj f => by
      have := stringify_length_F f
      simp [jmeasureV, stringifyV]
      omega

theorem stringify_length_L : ∀ l : JSList, jmeasureL l ≤ 2 * (stringifyL l).length + 3
  | JSList.nil => by simp [jmeasureL, stringifyL]
  | JSList.cons v JSList.nil => by
      have := stringify_length_V v
      simp [jmeasureL, stringifyL, jmeasureL]
      omega
  | JSList.cons v (JSList.cons w tl) => by
      have h1 := stringify_length_V v
      have h2 := stringify_length_L (JSList.cons w tl)
      simp only [jmeasureL, stringifyL, List.length_append, List.length_cons]
      simp only [jmeasureL] at h2
      omega

theorem stringify_length_F : ∀ f : JSFields, jmeasureF f ≤ 2 * (stringifyF f).length + 3
  | JSFields.nil => by simp [jmeasureF, stringifyF]
  | JSFields.cons k v JSFields.nil => by
      have h1 := stringify_length_V v
      have h2 := escapeList_length k.data
      have h4 : k.length = k.data.length := rfl
      simp [jmeasureF, stringifyF]
      omega
  | JSFields.cons k v (JSFields.cons k2 w tl) => by
      have h1 := stringify_length_V v
      have h2 := escapeList_length k.data
      have h3 := stringify_length_F (JSFields.cons k2 w tl)
      simp only [jmeasureF, stringifyF, List.length_append, List.length_cons]
      simp only [jmeasureF] at h3
      omega

end

/-- Round trip: parsing a stringified value yields the value back.  This is
the heart of the storage round-trip property. -/
theorem parseJson_stringifyJson (v : JSValue) : parseJson (stringifyJson v) = some v := by
  have hb := stringify_length_V v
  have h := parseValue_stringify v [] (2 * (stringifyV v).length + 2) (by omega)
    (by intro c cs hcs; cases hcs)
  simp only [List.append_nil] at h
  unfold parseJson stringifyJson
  rw [show (String.mk (stringifyV v)).data = stringifyV v from rfl, h]
  simp [skipWs]

end Bridge

namespace Bridge

/-- Modelled from the spec: the `STORAGE_TYPE` constants (`src/constants.js`
is not part of the sources at hand); the base bridge supports
LOCAL_STORAGE and rejects PLATFORM_INTERNAL. -/
inductive StorageType where
  | localStorage
  | platformInternal
deriving DecidableEq

/-- Modelled from the spec: the `ERROR` constants (`src/constants.js` is not
part of the sources at hand); only `STORAGE_NOT_SUPPORTED` is used here. -/
inductive JSError where
  | storageNotSupported
deriving DecidableEq

/-- Settlement of a promise returned by a storage method: the bridge never
throws synchronously, it returns a promise that is resolved or rejected. -/
inductive Promised (α : Type) where
  | resolved (v : α)
  | rejected (e : JSError)
deriving DecidableEq

/-- The `key` argument of the storage methods: a single string or an array
of strings (`Array.isArray(key)` distinguishes the two). -/
inductive KeyArg where
  | single (k : String)
  | multiple (ks : List String)
deriving DecidableEq

/-- Result of `getDataFromStorage`: one value for a single key, an ordered
array of values for an array of keys. -/
inductive StorageData where
  | one (v : JSValue)
  | many (vs : List JSValue)
deriving DecidableEq

/-- The `window.localStorage` contents: a map from keys to stored text. -/
abbrev LocalStore : Type := String → Option String

/-- JS `typeof value === 'object'`: true for null, arrays and objects. -/
def jsTypeofObject : JSValue → Bool
  | JSValue.jnull => true
  | JSValue.jarr _ => true
  | JSValue.jobj _ => true
  | _ => false

/-- JS string coercion `String(value)` for the primitive values that
`_setDataToLocalStorage` passes to `setItem` unserialized. -/
def jsToString : JSValue → String
  | JSValue.jstr s => s
  | JSValue.jnum n => String.mk (intToChars n)
  | JSValue.jbool true => "true"
  | JSValue.jbool false => "false"
  | v => stringifyJson v

/-- The text `_setDataToLocalStorage` hands to `localStorage.setItem`:
`typeof value === 'object' ? JSON.stringify(value) : value`. -/
def storedText (value : JSValue) : String :=
  if jsTypeofObject value then stringifyJson value else jsToString value

/-- What `_getDataFromLocalStorage` makes of a stored text: `JSON.parse` it,
and fall back to the raw text when parsing throws. -/
def readText (text : String) : JSValue :=
  match parseJson text with
  | some v => v
  | none => JSValue.jstr text

def localStorageSetItem (store : LocalStore) (key text : String) : LocalStore :=
  fun k => if k = key then some text else store k

def localStorageRemoveItem (store : LocalStore) (key : String) : LocalStore :=
  fun k => if k = key then none else store k

/-- Embedding of `_getDataFromLocalStorage(key)`: `getItem` returns the
stored text or `null`; a string result is JSON-parsed with raw-text
fallback, a `null` result is returned as-is. -/
def getDataFromLocalStorage (store : LocalStore) (key : String) : JSValue :=
  match store key with
  | some text => readText text
  | none => JSValue.jnull

/-- Embedding of `_setDataToLocalStorage(key, value)`. -/
def setDataToLocalStorage (store : LocalStore) (key : String) (value : JSValue) : LocalStore :=
  localStorageSetItem store key (storedText value)

/-- Embedding of `_deleteDataFromLocalStorage(key)`. -/
def deleteDataFromLocalStorage (store : LocalStore) (key : String) : LocalStore :=
  localStorageRemoveItem store key

def JSList.toList : JSList → List JSValue
  | JSList.nil => []
  | JSList.cons v tl => v :: JSList.toList tl

def JSList.ofList : List JSValue → JSList
  | [] => JSList.nil
  | v :: tl => JSList.cons v (JSList.ofList tl)

theorem JSList.toList_ofList (l : List JSValue) : JSList.toList (JSList.ofList l) = l := by
  induction l with
  | nil => rfl
  | cons v tl ih => simp [JSList.ofList, JSList.toList, ih]

/-- Element access `value[i]` as the batch branch of `setDataToStorage`
performs it: arrays index their elements, strings index to one-character
strings, and the other primitives yield `undefined` (`none`).  (Indexing
`null` would throw in JS and an object would look up the key `String(i)`;
neither case occurs below and both are outside the model.) -/
def jsIndex (value : JSValue) (i : Nat) : Option JSValue :=
  match value with
  | JSValue.jarr l => (JSList.toList l).get? i
  | JSValue.jstr s => (s.data.get? i).map (fun c => JSValue.jstr (String.mk [c]))
  | _ => none

/-- The text stored for index `i` of a batch write: `value[i]` coerced as
`setItem` does, where an out-of-range `undefined` is coerced to the text
"undefined". -/
def valueTextAt (value : JSValue) (i : Nat) : String :=
  match jsIndex value i with
  | some v => storedText v
  | none => "undefined"

/-- The batch branch of `setDataToStorage`:
`key.forEach((k, i) => this._setDataToLocalStorage(k, value[i]))`,
unrolled with the running index `i`. -/
def batchSetFrom (store : LocalStore) (ks : List String) (value : JSValue) (i : Nat) :
    LocalStore :=
  match ks with
  | [] => store
  | k :: tl => batchSetFrom (localStorageSetItem store k (valueTextAt value i)) tl value (i + 1)

/-- Embedding of `getDataFromStorage(key, storageType)`. -/
def getDataFromStorage (ls : Option LocalStore) (key : KeyArg) (storageType : StorageType) :
    Promised StorageData :=
  match storageType with
  | StorageType.localStorage =>
      match ls with
      | some store =>
          match key with
          | KeyArg.multiple ks =>
              Promised.resolved (StorageData.many (ks.map (getDataFromLocalStorage store)))
          | KeyArg.single k =>
              Promised.resolved (StorageData.one (getDataFromLocalStorage store k))
      | none => Promised.rejected JSError.storageNotSupported
  | StorageType.platformInternal => Promised.rejected JSError.storageNotSupported

/-- Embedding of `setDataToStorage(key, value, storageType)`; the resolved
promise carries the updated local store (the JS promise resolves with
`undefined`; the store is the mutated state). -/
def setDataToStorage (ls : Option LocalStore) (key : KeyArg) (value : JSValue)
    (storageType : StorageType) : Promised LocalStore :=
  match storageType with
  | StorageType.localStorage =>
      match ls with
      | some store =>
          match key with
          | KeyArg.multiple ks => Promised.resolved (batchSetFrom store ks value 0)
          | KeyArg.single k => Promised.resolved (setDataToLocalStorage store k value)
      | none => Promised.rejected JSError.storageNotSupported
  | StorageType.platformInternal => Promised.rejected JSError.storageNotSupported

/-- Embedding of `deleteDataFromStorage(key, storageType)`. -/
def deleteDataFromStorage (ls : Option LocalStore) (key : KeyArg)
    (storageType : StorageType) : Promised LocalStore :=
  match storageType with
  | StorageType.localStorage =>
      match ls with
      | some store =>
          match key with
          | KeyArg.multiple ks =>
              Promised.resolved (ks.foldl (fun acc k => deleteDataFromLocalStorage acc k) store)
          | KeyArg.single k => Promised.resolved (deleteDataFromLocalStorage store k)
      | none => Promised.rejected JSError.storageNotSupported
  | StorageType.platformInternal => Promised.rejected JSError.storageNotSupported

theorem readText_storedText_object (v : JSValue) (h : jsTypeofObject v = true) :
    readText (storedText v) = v := by
  simp [storedText, h, readText, parseJson_stringifyJson v]

/-- Every non-string value survives the store/read coercion: objects,
arrays and null are stringified and parsed back; numbers and booleans are
stored as their coerced text, which parses back to the same value. -/
theorem readText_storedText_nonstr (v : JSValue) (h : ∀ s, v ≠ JSValue.jstr s) :
    readText (storedText v) = v := by
  cases v with
  | jnull => exact readText_storedText_object _ rfl
  | jarr l => exact readText_storedText_object _ rfl
  | jobj f => exact readText_storedText_object _ rfl
  | jstr s => exact absurd rfl (h s)
  | jnum n =>
      have h1 : storedText (JSValue.jnum n) = stringifyJson (JSValue.jnum n) := rfl
      rw [h1]
      simp [readText, parseJson_stringifyJson]
  | jbool b =>
      cases b with
      | true =>
          have h1 : storedText (JSValue.jbool true) = stringifyJson (JSValue.jbool true) := rfl
          rw [h1]
          simp [readText, parseJson_stringifyJson]
      | false =>
          have h1 : storedText (JSValue.jbool false) = stringifyJson (JSValue.jbool false) := rfl
          rw [h1]
          simp [readText, parseJson_stringifyJson]

theorem batchSetFrom_other (ks : List String) :
    ∀ (store : LocalStore) (value : JSValue) (i : Nat) (k : String), k ∉ ks →
      batchSetFrom store ks value i k = store k := by
  induction ks with
  | nil => intro store value i k _; rfl
  | cons k0 tl ih =>
      intro store value i k hk
      simp only [batchSetFrom]
      rw [ih _ value (i + 1) k (by simp at hk; exact hk.2)]
      simp only [localStorageSetItem]
      rw [if_neg (by simp at hk; exact hk.1)]

theorem batchSetFrom_map_read (ks : List String) :
    ∀ (vs : List JSValue) (store : LocalStore) (value : JSValue) (i : Nat),
      ks.Nodup → ks.length = vs.length →
      (∀ j, vs.get? j = jsIndex value (i + j)) →
      (∀ v ∈ vs, readText (storedText v) = v) →
      ks.map (getDataFromLocalStorage (batchSetFrom store ks value i)) = vs := by
  induction ks with
  | nil =>
      intro vs store value i _ hlen _ _
      simp at hlen
      rw [List.eq_nil_of_length_eq_zero hlen.symm]
      rfl
  | cons k tl ih =>
      intro vs store value i hnodup hlen hvs hfaith
      cases vs with
      | nil => simp at hlen
      | cons v vtl =>
          obtain ⟨hknotin, hnd⟩ := List.nodup_cons.mp hnodup
          have h0 : jsIndex value i = some v := by
            have h1 := hvs 0
            simp at h1
            exact h1.symm
          have hhead :
              getDataFromLocalStorage
                (batchSetFrom (localStorageSetItem store k (valueTextAt value i)) tl value (i + 1)) k
                = v := by
            unfold getDataFromLocalStorage
            rw [batchSetFrom_other tl _ value (i + 1) k hknotin]
            simp only [localStorageSetItem, if_pos rfl]
            have h2 : valueTextAt value i = storedText v := by
              simp [valueTextAt, h0]
            rw [h2]
            exact hfaith v (by simp)
          have htail :
              tl.map (getDataFromLocalStorage
                (batchSetFrom (localStorageSetItem store k (valueTextAt value i)) tl value (i + 1)))
                = vtl := by
            refine ih vtl _ value (i + 1) hnd (by simpa using hlen) ?_ ?_
            · intro j
              rw [show i + 1 + j = i + (j + 1) from by omega]
              have h3 := hvs (j + 1)
              simpa using h3
            · intro w hw
              exact hfaith w (by simp [hw])
          simp only [batchSetFrom, List.map_cons]
          rw [hhead, htail]

end Bridge

namespace Bridge

/-- Modelled from the spec: the `DEVICE_TYPE` constants (`src/constants.js`
is not part of the sources at hand). -/
inductive DeviceType where
  | mobile
  | tablet
  | desktop
deriving DecidableEq

/-- Does `needle` occur as a contiguous substring of the haystack?  This is
`regex.test` for a literal pattern. -/
def hasSub (needle : List Char) : List Char → Bool
  | [] => needle.isEmpty
  | c :: cs => needle.isPrefixOf (c :: cs) || hasSub needle cs

/-- Does `needle` occur at a position whose suffix (everything after the
occurrence) satisfies `p`?  This renders a regex lookahead placed right
after a literal: `needle(?!…)` and `needle(…)` both constrain the suffix.
(`.` is modelled as matching any character; user agents carry no
newlines.) -/
def occSuffix (needle : List Char) (p : List Char → Bool) : List Char → Bool
  | [] => needle.isEmpty && p []
  | c :: cs =>
      (needle.isPrefixOf (c :: cs) && p ((c :: cs).drop needle.length))
        || occSuffix needle p cs

/-- The mobile test of the `deviceType` getter:
`/android|webos|iphone|ipod|blackberry|iemobile|opera mini/i` applied to the
lowercased user agent (all alternatives are lowercase literals, so the `i`
flag adds nothing on a lowercased input). -/
def mobileTest (hay : List Char) : Bool :=
  hasSub "android".data hay || hasSub "webos".data hay || hasSub "iphone".data hay
    || hasSub "ipod".data hay || hasSub "blackberry".data hay
    || hasSub "iemobile".data hay || hasSub "opera mini".data hay

/-- The tablet test of the `deviceType` getter:
`/ipad|tablet|(android(?!.*mobile))|(windows(?!.*phone)(.*touch))|kindle|playbook|silk|(puffin(?!.*(IP|AP|WP)))/`
applied to the lowercased user agent (this regex has no `i` flag, so the
uppercase `IP|AP|WP` alternatives can never match the lowercased input). -/
def tabletTest (hay : List Char) : Bool :=
  hasSub "ipad".data hay || hasSub "tablet".data hay
    || occSuffix "android".data (fun suf => !hasSub "mobile".data suf) hay
    || occSuffix "windows".data
        (fun suf => !hasSub "phone".data suf && hasSub "touch".data suf) hay
    || hasSub "kindle".data hay || hasSub "playbook".data hay || hasSub "silk".data hay
    || occSuffix "puffin".data
        (fun suf => !(hasSub "IP".data suf || hasSub "AP".data suf
          || hasSub "WP".data suf)) hay

/-- Embedding of the `deviceType` getter.  `none` models a missing
`navigator`/`userAgent`; the empty string is falsy in the guard
`if (navigator && navigator.userAgent)`.  (`toLowerCase` is modelled by
Lean's ASCII `Char.toLower`; user-agent strings are ASCII.) -/
def deviceType (userAgent : Option String) : DeviceType :=
  match userAgent with
  | none => DeviceType.desktop
  | some ua =>
      if ua = "" then DeviceType.desktop
      else if mobileTest (ua.data.map Char.toLower) then DeviceType.mobile
      else if tabletTest (ua.data.map Char.toLower) then DeviceType.tablet
      else DeviceType.desktop

/-- Embedding of the `platformLanguage` getter: for a string locale,
`value.substring(0, 2).toLowerCase()` (the first two characters,
lowercased); `none` models a `navigator.language` that is absent or not a
string, giving the default "en".  (`toLowerCase` is modelled by Lean's
ASCII `Char.toLower`; two-letter language tags are ASCII.) -/
def platformLanguage (navLang : Option String) : String :=
  match navLang with
  | some s => String.mk ((s.data.take 2).map Char.toLower)
  | none => "en"

end Bridge

namespace Bridge

/-- Claim C5: for every key and object-typed value (object, array or null),
`setDataToStorage` to local storage JSON-serializes the value and a
following `getDataFromStorage` resolves with a value deep-equal to it; and
whenever the stored text does not parse as JSON, the read resolves with the
raw stored text instead of failing. -/
theorem storage_object_roundtrip (store : LocalStore) (k : String) (v : JSValue)
    (hv : jsTypeofObject v = true) :
    setDataToStorage (some store) (KeyArg.single k) v StorageType.localStorage
        = Promised.resolved (setDataToLocalStorage store k v) ∧
      getDataFromStorage (some (setDataToLocalStorage store k v)) (KeyArg.single k)
          StorageType.localStorage
        = Promised.resolved (StorageData.one v) ∧
      (∀ (store2 : LocalStore) (text : String), parseJson text = none →
        store2 k = some text →
        getDataFromStorage (some store2) (KeyArg.single k) StorageType.localStorage
          = Promised.resolved (StorageData.one (JSValue.jstr text))) := by
  refine ⟨rfl, ?_, ?_⟩
  · have h1 : setDataToLocalStorage store k v k = some (storedText v) := by
      simp [setDataToLocalStorage, localStorageSetItem]
    simp [getDataFromStorage, getDataFromLocalStorage, h1,
      readText_storedText_object v hv]
  · intro store2 text hp hk
    simp [getDataFromStorage, getDataFromLocalStorage, hk, readText, hp]

/-- Concrete instance of C5: the object `{a: 1}` stored under "save" in an
empty local storage reads back deep-equal, and a key holding the
unparseable text "not json" reads back as that raw text. -/
theorem storage_object_roundtrip_witness :
    getDataFromStorage
        (some (setDataToLocalStorage (fun _ => none) "save"
          (JSValue.jobj (JSFields.cons "a" (JSValue.jnum 1) JSFields.nil))))
        (KeyArg.single "save") StorageType.localStorage
      = Promised.resolved (StorageData.one
          (JSValue.jobj (JSFields.cons "a" (JSValue.jnum 1) JSFields.nil))) ∧
      getDataFromStorage (some (fun k => if k = "save" then some "not json" else none))
          (KeyArg.single "save") StorageType.localStorage
        = Promised.resolved (StorageData.one (JSValue.jstr "not json")) := by
  have h := storage_object_roundtrip (fun _ => none) "save"
    (JSValue.jobj (JSFields.cons "a" (JSValue.jnum 1) JSFields.nil)) (by decide)
  exact ⟨h.2.1, h.2.2 (fun k => if k = "save" then some "not json" else none)
    "not json" (by decide) (by decide)⟩

/-- Claim C6: batch storage preserves element order and length.  Writing
same-length key and value lists applies the pairs element-wise in list
order (the `batchSetFrom` fold), and reading a list of keys resolves with
the same-length list of per-key results in the same order; with distinct
keys and values that survive the store/read coercion, reading back the
written keys yields exactly the written values. -/
theorem batch_storage_order (store : LocalStore) (ks : List String) (vs : List JSValue)
    (hlen : ks.length = vs.length) (hnodup : ks.Nodup)
    (hfaith : ∀ v ∈ vs, readText (storedText v) = v) :
    setDataToStorage (some store) (KeyArg.multiple ks) (JSValue.jarr (JSList.ofList vs))
        StorageType.localStorage
      = Promised.resolved (batchSetFrom store ks (JSValue.jarr (JSList.ofList vs)) 0) ∧
    getDataFromStorage
        (some (batchSetFrom store ks (JSValue.jarr (JSList.ofList vs)) 0))
        (KeyArg.multiple ks) StorageType.localStorage
      = Promised.resolved (StorageData.many vs) ∧
    (∀ (store2 : LocalStore) (ks2 : List String),
      getDataFromStorage (some store2) (KeyArg.multiple ks2) StorageType.localStorage
        = Promised.resolved (StorageData.many (ks2.map (getDataFromLocalStorage store2)))) := by
  refine ⟨rfl, ?_, fun store2 ks2 => rfl⟩
  have hvs : ∀ j, vs.get? j = jsIndex (JSValue.jarr (JSList.ofList vs)) (0 + j) := by
    intro j
    simp [jsIndex, JSList.toList_ofList]
  have h := batchSetFrom_map_read ks vs store (JSValue.jarr (JSList.ofList vs)) 0
    hnodup hlen hvs hfaith
  simp [getDataFromStorage, h]

/-- Concrete instance of C6: `setData(["k1","k2"], [1,2])` then
`getData(["k1","k2"])` yields `[1,2]` in order. -/
theorem batch_storage_order_witness :
    getDataFromStorage
        (some (batchSetFrom (fun _ => none) ["k1", "k2"]
          (JSValue.jarr (JSList.ofList [JSValue.jnum 1, JSValue.jnum 2])) 0))
        (KeyArg.multiple ["k1", "k2"]) StorageType.localStorage
      = Promised.resolved (StorageData.many [JSValue.jnum 1, JSValue.jnum 2]) := by
  have h := batch_storage_order (fun _ => none) ["k1", "k2"]
    [JSValue.jnum 1, JSValue.jnum 2] rfl (by decide)
    (by intro v hv
        simp at hv
        rcases hv with h1 | h1 <;> subst h1 <;> decide)
  exact h.2.1

/-- Claim C7: for the unsupported storage kind, and for the local-storage
kind when the local storage handle is null, `getDataFromStorage`,
`setDataToStorage` and `deleteDataFromStorage` all return a promise
rejected with STORAGE_NOT_SUPPORTED (and, being total functions of the
state, never throw synchronously). -/
theorem storage_unsupported_rejects (ls : Option LocalStore) (key : KeyArg)
    (value : JSValue) :
    getDataFromStorage ls key StorageType.platformInternal
        = Promised.rejected JSError.storageNotSupported ∧
      setDataToStorage ls key value StorageType.platformInternal
        = Promised.rejected JSError.storageNotSupported ∧
      deleteDataFromStorage ls key StorageType.platformInternal
        = Promised.rejected JSError.storageNotSupported ∧
      (∀ st : StorageType, getDataFromStorage none key st
        = Promised.rejected JSError.storageNotSupported) ∧
      (∀ st : StorageType, setDataToStorage none key value st
        = Promised.rejected JSError.storageNotSupported) ∧
      (∀ st : StorageType, deleteDataFromStorage none key st
        = Promised.rejected JSError.storageNotSupported) := by
  refine ⟨rfl, rfl, rfl, ?_, ?_, ?_⟩ <;> (intro st; cases st <;> rfl)

/-- Claim C10: storing a string stores its text verbatim (strings are not
re-serialized), but reading parses the text as JSON, so a string that is
itself valid JSON does not round-trip: it reads back as its parse (e.g.
the string "1" reads back as the number 1 and the string "null" as null);
only strings that fail to parse as JSON round-trip unchanged. -/
theorem storage_string_read_parses (store : LocalStore) (k : String) :
    (∀ s : String,
      setDataToStorage (some store) (KeyArg.single k) (JSValue.jstr s)
          StorageType.localStorage
        = Promised.resolved (localStorageSetItem store k s)) ∧
      (∀ (s : String) (j : JSValue), parseJson s = some j →
        getDataFromStorage (some (setDataToLocalStorage store k (JSValue.jstr s)))
            (KeyArg.single k) StorageType.localStorage
          = Promised.resolved (StorageData.one j)) ∧
      (∀ s : String, parseJson s = none →
        getDataFromStorage (some (setDataToLocalStorage store k (JSValue.jstr s)))
            (KeyArg.single k) StorageType.localStorage
          = Promised.resolved (StorageData.one (JSValue.jstr s))) ∧
      getDataFromStorage (some (setDataToLocalStorage store k (JSValue.jstr "1")))
          (KeyArg.single k) StorageType.localStorage
        = Promised.resolved (StorageData.one (JSValue.jnum 1)) ∧
      JSValue.jnum 1 ≠ JSValue.jstr "1" ∧
      getDataFromStorage (some (setDataToLocalStorage store k (JSValue.jstr "null")))
          (KeyArg.single k) StorageType.localStorage
        = Promised.resolved (StorageData.one JSValue.jnull) ∧
      JSValue.jnull ≠ JSValue.jstr "null" := by
  have hstored : ∀ s : String, setDataToLocalStorage store k (JSValue.jstr s) k = some s := by
    intro s
    simp [setDataToLocalStorage, localStorageSetItem, storedText, jsTypeofObject, jsToString]
  have h2 : ∀ (s : String) (j : JSValue), parseJson s = some j →
      getDataFromStorage (some (setDataToLocalStorage store k (JSValue.jstr s)))
          (KeyArg.single k) StorageType.localStorage
        = Promised.resolved (StorageData.one j) := by
    intro s j hp
    simp [getDataFromStorage, getDataFromLocalStorage, hstored s, readText, hp]
  have h3 : ∀ s : String, parseJson s = none →
      getDataFromStorage (some (setDataToLocalStorage store k (JSValue.jstr s)))
          (KeyArg.single k) StorageType.localStorage
        = Promised.resolved (StorageData.one (JSValue.jstr s)) := by
    intro s hp
    simp [getDataFromStorage, getDataFromLocalStorage, hstored s, readText, hp]
  exact ⟨fun s => rfl, h2, h3, h2 "1" (JSValue.jnum 1) (by decide), by decide,
    h2 "null" JSValue.jnull (by decide), by decide⟩

/-- Concrete instance of C10: in an empty storage under key "draft", the
stored string "1" reads back as the number 1, and the non-JSON string
"hello" round-trips unchanged. -/
theorem storage_string_read_parses_witness :
    getDataFromStorage
        (some (setDataToLocalStorage (fun _ => none) "draft" (JSValue.jstr "1")))
        (KeyArg.single "draft") StorageType.localStorage
      = Promised.resolved (StorageData.one (JSValue.jnum 1)) ∧
      getDataFromStorage
          (some (setDataToLocalStorage (fun _ => none) "draft" (JSValue.jstr "hello")))
          (KeyArg.single "draft") StorageType.localStorage
        = Promised.resolved (StorageData.one (JSValue.jstr "hello")) := by
  have h := storage_string_read_parses (fun _ => none) "draft"
  exact ⟨h.2.2.2.1, h.2.2.1 "hello" (by decide)⟩

end Bridge

namespace Bridge

/-- Counterexample to claim C8 as stated: the mobile alternation itself
contains "android", so the user agent "android" (which does not contain
"mobile") classifies as MOBILE, not TABLET — the tablet pattern's
android-without-mobile alternative is unreachable. -/
theorem deviceType_android_counterexample :
    deviceType (some "android") = DeviceType.mobile ∧
      hasSub "mobile".data ("android".data.map Char.toLower) = false ∧
      deviceType (some "android") ≠ DeviceType.tablet := by decide

/-- Claim C8 (amended): for every user agent, the result is MOBILE when the
lowercased string matches the mobile pattern, else TABLET when it matches
the tablet pattern, else DESKTOP; a user agent containing "iphone" — and
likewise any Android user agent, with or without "mobile", since "android"
is one of the mobile alternatives — classifies as MOBILE, and an absent or
empty user agent classifies as DESKTOP. -/
theorem deviceType_classification (ua : String) (h : ua ≠ "") :
    (mobileTest (ua.data.map Char.toLower) = true →
        deviceType (some ua) = DeviceType.mobile) ∧
      (mobileTest (ua.data.map Char.toLower) = false →
        tabletTest (ua.data.map Char.toLower) = true →
        deviceType (some ua) = DeviceType.tablet) ∧
      (mobileTest (ua.data.map Char.toLower) = false →
        tabletTest (ua.data.map Char.toLower) = false →
        deviceType (some ua) = DeviceType.desktop) ∧
      (hasSub "iphone".data (ua.data.map Char.toLower) = true →
        deviceType (some ua) = DeviceType.mobile) ∧
      (hasSub "android".data (ua.data.map Char.toLower) = true →
        deviceType (some ua) = DeviceType.mobile) ∧
      deviceType none = DeviceType.desktop ∧
      deviceType (some "") = DeviceType.desktop := by
  refine ⟨?_, ?_, ?_, ?_, ?_, rfl, rfl⟩
  · intro hm
    simp [deviceType, h, hm]
  · intro hm ht
    simp [deviceType, h, hm, ht]
  · intro hm ht
    simp [deviceType, h, hm, ht]
  · intro hs
    have hm : mobileTest (ua.data.map Char.toLower) = true := by
      simp [mobileTest, hs]
    simp [deviceType, h, hm]
  · intro hs
    have hm : mobileTest (ua.data.map Char.toLower) = true := by
      simp [mobileTest, hs]
    simp [deviceType, h, hm]

/-- Concrete instances of the amended C8: an iPhone user agent is MOBILE,
an iPad user agent is TABLET, an Android tablet user agent (no "mobile")
is MOBILE, and a desktop user agent is DESKTOP. -/
theorem deviceType_classification_witness :
    deviceType (some "iPhone OS 16") = DeviceType.mobile ∧
      deviceType (some "Mozilla (iPad; CPU OS 16)") = DeviceType.tablet ∧
      deviceType (some "Linux; Android 10; SM-T510") = DeviceType.mobile ∧
      deviceType (some "curl/8.0") = DeviceType.desktop := by
  refine ⟨?_, ?_, ?_, ?_⟩
  · exact (deviceType_classification "iPhone OS 16" (by decide)).2.2.2.1 (by decide)
  · exact (deviceType_classification "Mozilla (iPad; CPU OS 16)" (by decide)).2.1
      (by decide) (by decide)
  · exact (deviceType_classification "Linux; Android 10; SM-T510" (by decide)).2.2.2.2.1
      (by decide)
  · exact (deviceType_classification "curl/8.0" (by decide)).2.2.1 (by decide) (by decide)

/-- Claim C9: for a string locale the getter returns the locale's first two
characters lowercased ("fr-FR" yields "fr"); an unavailable or non-string
locale yields "en".  (A locale shorter than two characters yields itself
lowercased, as `substring(0, 2)` does.) -/
theorem platformLanguage_spec :
    (∀ s : String, platformLanguage (some s)
        = String.mk ((s.data.take 2).map Char.toLower)) ∧
      platformLanguage none = "en" ∧
      platformLanguage (some "fr-FR") = "fr" ∧
      platformLanguage (some "EN") = "en" ∧
      platformLanguage (some "f") = "f" := by
  exact ⟨fun s => rfl, rfl, by decide, by decide, by decide⟩

end Bridge
